import Mathlib

/-!
Verification of the in-memory room/session coordinator of the
Interview-Box backend (src/index.js).

The server keeps three JavaScript `Map`s:
  * `userSocketMap` : socket.id -> { email, roomId }   (SessionDirectory)
  * `roomCodeMap`   : roomId -> latest code            (SharedDocumentStore)
  * `activeRooms`   : roomId -> Map socket.id -> { email, socketId }
                                                       (RoomMembership)
plus socket.io's own per-room membership, which `socket.join(roomId)` and
the automatic leave-all on disconnect maintain, and which `socket.to(roomId)`
uses to compute broadcast recipients.

JavaScript `Map`s preserve insertion order and have unique keys; we model
them as association lists built by `listSet` (update-in-place or append)
and `listDelete` (remove the key), which preserves exactly the observable
insertion-order behaviour of `Map`.
-/

section ListKit

variable {α : Type} {β : Type} {γ : Type} [DecidableEq α]

/-- `Map.get`: look up the value stored under key `k`. -/
def listLookup (k : α) : List (α × β) → Option β
  | [] => none
  | (k', v) :: rest => if k' = k then some v else listLookup k rest

/-- `Map.set`: replace the value under `k` in place if present, else append. -/
def listSet (k : α) (v : β) : List (α × β) → List (α × β)
  | [] => [(k, v)]
  | (k', v') :: rest => if k' = k then (k, v) :: rest else (k', v') :: listSet k v rest

/-- `Map.delete`: remove the entry stored under `k`. -/
def listDelete (k : α) : List (α × β) → List (α × β)
  | [] => []
  | (k', v) :: rest => if k' = k then listDelete k rest else (k', v) :: listDelete k rest

/-- Remove every occurrence of `x` from a plain list. -/
def removeAll (x : α) : List α → List α
  | [] => []
  | y :: rest => if y = x then removeAll x rest else y :: removeAll x rest

theorem listLookup_set_self (k : α) (v : β) (l : List (α × β)) :
    listLookup k (listSet k v l) = some v := by
  induction l with
  | nil => simp [listSet, listLookup]
  | cons hd tl ih =>
    obtain ⟨k', v'⟩ := hd
    by_cases h : k' = k
    · simp [listSet, listLookup, h]
    · simp [listSet, listLookup, h, ih]

theorem listLookup_set_ne {k k' : α} (h : k' ≠ k) (v : β) (l : List (α × β)) :
    listLookup k' (listSet k v l) = listLookup k' l := by
  have hkk : k ≠ k' := Ne.symm h
  induction l with
  | nil => simp [listSet, listLookup, hkk]
  | cons hd tl ih =>
    obtain ⟨k0, v0⟩ := hd
    by_cases h0 : k0 = k
    · subst h0
      simp [listSet, listLookup, hkk]
    · simp [listSet, listLookup, h0, ih]

theorem listLookup_delete_self (k : α) (l : List (α × β)) :
    listLookup k (listDelete k l) = none := by
  induction l with
  | nil => simp [listDelete, listLookup]
  | cons hd tl ih =>
    obtain ⟨k', v'⟩ := hd
    by_cases h : k' = k
    · simp [listDelete, h, ih]
    · simp [listDelete, listLookup, h, ih]

theorem listLookup_delete_ne {k k' : α} (h : k' ≠ k) (l : List (α × β)) :
    listLookup k' (listDelete k l) = listLookup k' l := by
  have hkk : k ≠ k' := Ne.symm h
  induction l with
  | nil => simp [listDelete, listLookup]
  | cons hd tl ih =>
    obtain ⟨k0, v0⟩ := hd
    by_cases h0 : k0 = k
    · subst h0
      simp [listDelete, listLookup, hkk, ih]
    · simp [listDelete, listLookup, h0, ih]

theorem keys_set_of_lookup_none {k : α} {l : List (α × β)} (h : listLookup k l = none)
    (v : β) : (listSet k v l).map Prod.fst = l.map Prod.fst ++ [k] := by
  induction l with
  | nil => simp [listSet]
  | cons hd tl ih =>
    obtain ⟨k', v'⟩ := hd
    by_cases h0 : k' = k
    · simp [listLookup, h0] at h
    · simp [listLookup, h0] at h
      simp [listSet, h0, ih h]

theorem keys_delete (k : α) (l : List (α × β)) :
    (listDelete k l).map Prod.fst = removeAll k (l.map Prod.fst) := by
  induction l with
  | nil => simp [listDelete, removeAll]
  | cons hd tl ih =>
    obtain ⟨k', v'⟩ := hd
    by_cases h : k' = k
    · simp [listDelete, removeAll, h, ih]
    · simp [listDelete, removeAll, h, ih]

theorem lookup_isSome_of_mem_keys {k : α} {l : List (α × β)}
    (h : k ∈ l.map Prod.fst) : (listLookup k l).isSome := by
  induction l with
  | nil => simp at h
  | cons hd tl ih =>
    obtain ⟨k', v'⟩ := hd
    by_cases h0 : k' = k
    · simp [listLookup, h0]
    · simp only [List.map_cons, List.mem_cons] at h
      rcases h with h | h
      · exact absurd h.symm h0
      · simp [listLookup, h0, ih h]

theorem mem_keys_of_lookup_isSome {k : α} {l : List (α × β)}
    (h : (listLookup k l).isSome) : k ∈ l.map Prod.fst := by
  induction l with
  | nil => simp [listLookup] at h
  | cons hd tl ih =>
    obtain ⟨k', v'⟩ := hd
    by_cases h0 : k' = k
    · simp [h0]
    · simp only [listLookup, h0, if_false] at h
      simp only [List.map_cons, List.mem_cons]
      exact Or.inr (ih h)

theorem mem_removeAll_iff {x y : α} {l : List α} :
    y ∈ removeAll x l ↔ y ∈ l ∧ y ≠ x := by
  induction l with
  | nil => simp [removeAll]
  | cons z rest ih =>
    by_cases h : z = x
    · subst h
      rw [removeAll, if_pos rfl, ih]
      constructor
      · exact fun hy => ⟨List.mem_cons_of_mem _ hy.1, hy.2⟩
      · rintro ⟨hy, hne⟩
        rcases List.mem_cons.mp hy with h1 | h1
        · exact absurd h1 hne
        · exact ⟨h1, hne⟩
    · rw [removeAll, if_neg h]
      constructor
      · intro hy
        rcases List.mem_cons.mp hy with h1 | h1
        · subst h1
          exact ⟨List.mem_cons_self _ _, fun he => (h he).elim⟩
        · exact ⟨List.mem_cons_of_mem _ (ih.mp h1).1, (ih.mp h1).2⟩
      · rintro ⟨hy, hne⟩
        rcases List.mem_cons.mp hy with h1 | h1
        · exact h1 ▸ List.mem_cons_self _ _
        · exact List.mem_cons_of_mem _ (ih.mpr ⟨h1, hne⟩)

theorem removeAll_eq_of_not_mem {x : α} {l : List α} (h : x ∉ l) :
    removeAll x l = l := by
  induction l with
  | nil => rfl
  | cons z rest ih =>
    have h1 : ¬ z = x := by
      intro he
      subst he
      exact h (List.mem_cons_self _ _)
    rw [removeAll, if_neg h1, ih (fun hm => h (List.mem_cons_of_mem _ hm))]

theorem not_mem_removeAll (x : α) (l : List α) : x ∉ removeAll x l := by
  intro h
  exact (mem_removeAll_iff.mp h).2 rfl

theorem removeAll_append (x : α) (l1 l2 : List α) :
    removeAll x (l1 ++ l2) = removeAll x l1 ++ removeAll x l2 := by
  induction l1 with
  | nil => simp [removeAll]
  | cons z rest ih =>
    by_cases h : z = x
    · simp [removeAll, h, ih]
    · simp [removeAll, h, ih]

theorem removeAll_nodup {x : α} {l : List α} (h : l.Nodup) :
    (removeAll x l).Nodup := by
  induction l with
  | nil => simp [removeAll]
  | cons z rest ih =>
    rw [List.nodup_cons] at h
    by_cases h0 : z = x
    · rw [removeAll, if_pos h0]
      exact ih h.2
    · rw [removeAll, if_neg h0, List.nodup_cons]
      exact ⟨fun hz => h.1 (mem_removeAll_iff.mp hz).1, ih h.2⟩

theorem listLookup_map_values (k : α) (g : β → γ) (l : List (α × β)) :
    listLookup k (l.map (fun kv => (kv.fst, g kv.snd))) = (listLookup k l).map g := by
  induction l with
  | nil => simp [listLookup]
  | cons hd tl ih =>
    obtain ⟨k', v'⟩ := hd
    by_cases h : k' = k
    · simp [listLookup, h]
    · simp [listLookup, h, ih]

end ListKit

/-! ## Data model (from src/index.js) -/

/-- Value stored in `userSocketMap`: `{ email, roomId }` (line 60). -/
structure UserData where
  email : String
  roomId : String
deriving DecidableEq, Repr

/-- Value stored in a room's member map: `{ email, socketId: socket.id }` (line 69). -/
structure RoomUser where
  email : String
  socketId : String
deriving DecidableEq, Repr

/-- The server's mutable state: the three tables plus socket.io's own
per-room membership (`socket.join` / automatic leave on disconnect),
which `socket.to(roomId)` consults for broadcasts. -/
structure ServerState where
  userSocketMap : List (String × UserData)
  roomCodeMap : List (String × String)
  activeRooms : List (String × List (String × RoomUser))
  ioRooms : List (String × List String)
deriving DecidableEq, Repr

/-- The empty server state at process start (lines 30-32). -/
def initState : ServerState := ⟨[], [], [], []⟩

/-- `getRoomUsers` (lines 35-38): `Array.from(room.values())`, in `Map`
insertion order, or `[]` when the room does not exist. -/
def getRoomUsers (roomId : String) (rooms : List (String × List (String × RoomUser))) :
    List RoomUser :=
  match listLookup roomId rooms with
  | some room => room.map Prod.snd
  | none => []

/-- The default document sentinel (line 73). -/
def placeholderCode : String := "// Start coding here..."

/-- JavaScript `x || dflt` for a possibly-absent string: the empty string is
falsy, so both a missing entry and an empty-string entry yield `dflt`. -/
def jsOrElse (o : Option String) (dflt : String) : String :=
  match o with
  | some s => if s = "" then dflt else s
  | none => dflt

/-- socket.io room membership after `socket.join(roomId)`: add the socket
to the room (a set: no effect when already present, else appended). -/
def ioJoin (roomId socketId : String) (ior : List (String × List String)) :
    List (String × List String) :=
  let cur := (listLookup roomId ior).getD []
  listSet roomId (if socketId ∈ cur then cur else cur ++ [socketId]) ior

/-- socket.io removes a disconnecting socket from every room. -/
def ioLeaveAll (socketId : String) (ior : List (String × List String)) :
    List (String × List String) :=
  ior.map (fun kv => (kv.fst, removeAll socketId kv.snd))

/-- The sockets currently in a socket.io room. -/
def ioMembers (roomId : String) (ior : List (String × List String)) : List String :=
  (listLookup roomId ior).getD []

/-! ## Event payloads and emitted messages -/

/-- Payload of `join` (line 51): `{ roomId, email }`. Missing fields are
modelled as `""` (JavaScript `undefined` and `""` are both falsy and the
handler only tests falsiness before using them). -/
structure JoinPayload where
  roomId : String
  email : String
deriving DecidableEq, Repr

/-- Payload of `code-change` (line 105): `{ roomId, code, cursorPosition }`.
The cursor position is opaque to the server; we model it as a string. -/
structure CodeChangePayload where
  roomId : String
  code : String
  cursorPosition : String
deriving DecidableEq, Repr

/-- Payload of `cursor-move` (line 119). -/
structure CursorMovePayload where
  roomId : String
  cursorPosition : String
deriving DecidableEq, Repr

/-- Payload of `selection-change` (line 131). -/
structure SelectionChangePayload where
  roomId : String
  selection : String
deriving DecidableEq, Repr

/-- Payload of `user:call` / `peer:nego:needed`: `{ to, offer }`. -/
structure CallPayload where
  target : String
  offer : String
deriving DecidableEq, Repr

/-- Payload of `call:accepted` / `peer:nego:done`: `{ to, ans }`. -/
structure AnsPayload where
  target : String
  ans : String
deriving DecidableEq, Repr

/-- Payload of `screen:start` / `screen:stop`: `{ to }`. -/
structure ScreenPayload where
  target : String
deriving DecidableEq, Repr

/-- Messages the server emits to clients. -/
inductive Msg where
  | joined (roomId email : String) (users : List RoomUser) (code : String)
  | userJoined (email socketId : String)
  | errorEvent (message : String)
  | codeChanged (code cursorPosition changedBy : String)
  | cursorMoved (cursorPosition movedBy : String)
  | selectionChanged (selection changedBy : String)
  | userDisconnected (socketId email : String)
  | incommingCall (fromId offer : String)
  | callAccepted (fromId ans : String)
  | peerNegoNeeded (fromId offer : String)
  | peerNegoFinal (fromId ans : String)
  | screenStarted (fromId : String)
  | screenStopped (fromId : String)
deriving DecidableEq, Repr

/-- Inbound events, tagged with the sending socket's id. A payload of
`none` models a missing / non-object payload, whose parameter
destructuring `({ ... })` throws before the handler body runs. -/
inductive Event where
  | join (sender : String) (payload : Option JoinPayload)
  | codeChange (sender : String) (payload : Option CodeChangePayload)
  | cursorMove (sender : String) (payload : Option CursorMovePayload)
  | selectionChange (sender : String) (payload : Option SelectionChangePayload)
  | disconnect (sender : String) (reason : String)
  | userCall (sender : String) (payload : Option CallPayload)
  | callAccept (sender : String) (payload : Option AnsPayload)
  | peerNegoNeed (sender : String) (payload : Option CallPayload)
  | peerNegoDone (sender : String) (payload : Option AnsPayload)
  | screenStart (sender : String) (payload : Option ScreenPayload)
  | screenStop (sender : String) (payload : Option ScreenPayload)
deriving DecidableEq, Repr

/-- Result of processing one event: the new state, the list of
(recipient socket id, message) deliveries in emission order, and whether
an exception escaped the handler uncaught (`raised = true`). -/
structure StepResult where
  state : ServerState
  emits : List (String × Msg)
  raised : Bool
deriving DecidableEq, Repr

/-- `socket.to(roomId).emit(...)`: deliver to every socket in the
socket.io room except the sender, one copy each. -/
def socketTo (sender roomId : String) (ior : List (String × List String)) (m : Msg) :
    List (String × Msg) :=
  (removeAll sender (ioMembers roomId ior)).map (fun t => (t, m))

/-! ## Event handlers (lines 51-196) -/

/-- Lines 66-68: `if (!activeRooms.has(roomId)) activeRooms.set(roomId, new Map())`. -/
def ensureRoom (roomId : String) (rooms : List (String × List (String × RoomUser))) :
    List (String × List (String × RoomUser)) :=
  match listLookup roomId rooms with
  | none => listSet roomId [] rooms
  | some _ => rooms

/-- `join` handler (lines 51-102). Validation throws inside the `try` on a
falsy `roomId` or `email` and the `catch` emits an `error` event back to
the sender. On success: register in `userSocketMap`, `socket.join`, ensure
the room's member map, insert the member, then emit `joined` to the sender
and `user:joined` to the rest of the room. -/
def handleJoin (sid : String) (payload : Option JoinPayload) (st : ServerState) :
    StepResult :=
  match payload with
  | none => ⟨st, [], true⟩
  | some p =>
    if p.roomId = "" ∨ p.email = "" then
      ⟨st, [(sid, Msg.errorEvent ("Failed to join room: " ++ "Room ID and email are required"))],
        false⟩
    else
      let usm := listSet sid ⟨p.email, p.roomId⟩ st.userSocketMap
      let ior := ioJoin p.roomId sid st.ioRooms
      let rooms0 := ensureRoom p.roomId st.activeRooms
      let newRoom := listSet sid ⟨p.email, sid⟩ ((listLookup p.roomId rooms0).getD [])
      let rooms := listSet p.roomId newRoom rooms0
      let roomUsers := getRoomUsers p.roomId rooms
      let currentCode := jsOrElse (listLookup p.roomId st.roomCodeMap) placeholderCode
      ⟨⟨usm, st.roomCodeMap, rooms, ior⟩,
        (sid, Msg.joined p.roomId p.email roomUsers currentCode) ::
          socketTo sid p.roomId ior (Msg.userJoined p.email sid),
        false⟩

/-- `code-change` handler (lines 105-116): unconditionally
`roomCodeMap.set(roomId, code)`, then broadcast `code-changed` to the
room except the sender. -/
def handleCodeChange (sid : String) (payload : Option CodeChangePayload) (st : ServerState) :
    StepResult :=
  match payload with
  | none => ⟨st, [], true⟩
  | some p =>
    ⟨{ st with roomCodeMap := listSet p.roomId p.code st.roomCodeMap },
      socketTo sid p.roomId st.ioRooms (Msg.codeChanged p.code p.cursorPosition sid),
      false⟩

/-- `cursor-move` handler (lines 119-128): no state mutation, broadcast
`cursor-moved` to the room except the sender. -/
def handleCursorMove (sid : String) (payload : Option CursorMovePayload) (st : ServerState) :
    StepResult :=
  match payload with
  | none => ⟨st, [], true⟩
  | some p =>
    ⟨st, socketTo sid p.roomId st.ioRooms (Msg.cursorMoved p.cursorPosition sid), false⟩

/-- `selection-change` handler (lines 131-140): no state mutation,
broadcast `selection-changed` to the room except the sender. -/
def handleSelectionChange (sid : String) (payload : Option SelectionChangePayload)
    (st : ServerState) : StepResult :=
  match payload with
  | none => ⟨st, [], true⟩
  | some p =>
    ⟨st, socketTo sid p.roomId st.ioRooms (Msg.selectionChanged p.selection sid), false⟩

/-- `disconnect` handler (lines 143-171). socket.io has already removed the
socket from every socket.io room when the handler runs. If the socket has a
`userSocketMap` record, delete it, remove the socket from its recorded
room's member map, broadcast `user:disconnected` to the remaining room
members, and delete the room and its document entry when the member map
became empty. Without a record nothing happens. -/
def handleDisconnect (sid : String) (st0 : ServerState) : StepResult :=
  let ior := ioLeaveAll sid st0.ioRooms
  let st : ServerState := { st0 with ioRooms := ior }
  match listLookup sid st.userSocketMap with
  | none => ⟨st, [], false⟩
  | some ud =>
    let usm := listDelete sid st.userSocketMap
    match listLookup ud.roomId st.activeRooms with
    | none => ⟨{ st with userSocketMap := usm }, [], false⟩
    | some room =>
      let room2 := listDelete sid room
      let emits := socketTo sid ud.roomId ior (Msg.userDisconnected sid ud.email)
      if room2.length = 0 then
        ⟨⟨usm, listDelete ud.roomId st.roomCodeMap, listDelete ud.roomId st.activeRooms, ior⟩,
          emits, false⟩
      else
        ⟨⟨usm, st.roomCodeMap, listSet ud.roomId room2 st.activeRooms, ior⟩, emits, false⟩

/-- WebRTC signaling handlers (lines 174-196): pure point-to-point relays
with no state mutation and no try/catch at all. -/
def handleSignal (_sid target : String) (m : Msg) (st : ServerState) : StepResult :=
  ⟨st, [(target, m)], false⟩

/-- Process one inbound event. -/
def step (e : Event) (st : ServerState) : StepResult :=
  match e with
  | .join s p => handleJoin s p st
  | .codeChange s p => handleCodeChange s p st
  | .cursorMove s p => handleCursorMove s p st
  | .selectionChange s p => handleSelectionChange s p st
  | .disconnect s _ => handleDisconnect s st
  | .userCall s p =>
    match p with
    | none => ⟨st, [], true⟩
    | some q => handleSignal s q.target (Msg.incommingCall s q.offer) st
  | .callAccept s p =>
    match p with
    | none => ⟨st, [], true⟩
    | some q => handleSignal s q.target (Msg.callAccepted s q.ans) st
  | .peerNegoNeed s p =>
    match p with
    | none => ⟨st, [], true⟩
    | some q => handleSignal s q.target (Msg.peerNegoNeeded s q.offer) st
  | .peerNegoDone s p =>
    match p with
    | none => ⟨st, [], true⟩
    | some q => handleSignal s q.target (Msg.peerNegoFinal s q.ans) st
  | .screenStart s p =>
    match p with
    | none => ⟨st, [], true⟩
    | some q => handleSignal s q.target (Msg.screenStarted s) st
  | .screenStop s p =>
    match p with
    | none => ⟨st, [], true⟩
    | some q => handleSignal s q.target (Msg.screenStopped s) st

/-- The state after one event. -/
def stepState (e : Event) (st : ServerState) : ServerState := (step e st).state

/-- Run a sequence of events from a state. -/
def run : ServerState → List Event → ServerState
  | st, [] => st
  | st, e :: evs => run (stepState e st) evs

/-- Recipient socket ids of the deliveries of one step, in order. -/
def recipientsOf (res : StepResult) : List String := res.emits.map Prod.fst

/-- The member socket ids currently recorded for a room in a membership
table, in insertion order (empty when the room does not exist). -/
def roomKeys (r : String) (rooms : List (String × List (String × RoomUser))) : List String :=
  ((listLookup r rooms).getD []).map Prod.fst

/-- The senders of the `join` events of a trace, in order. -/
def joinSenders : List Event → List String
  | [] => []
  | Event.join s _ :: evs => s :: joinSenders evs
  | _ :: evs => joinSenders evs

/-- How many `join` events a given connection issues in a trace. -/
def countJoins (c : String) (evs : List Event) : Nat := (joinSenders evs).count c

/-- Whether an event is a `join` or a `disconnect`. -/
def isJoinOrDisconnect : Event → Bool
  | Event.join _ _ => true
  | Event.disconnect _ _ => true
  | _ => false

/-- Whether an event carries a missing (non-object) payload. -/
def payloadMissing : Event → Bool
  | Event.join _ none => true
  | Event.codeChange _ none => true
  | Event.cursorMove _ none => true
  | Event.selectionChange _ none => true
  | Event.userCall _ none => true
  | Event.callAccept _ none => true
  | Event.peerNegoNeed _ none => true
  | Event.peerNegoDone _ none => true
  | Event.screenStart _ none => true
  | Event.screenStop _ none => true
  | _ => false

/-! ## Basic facts about the handler building blocks -/

theorem lookup_ensureRoom_self (r : String) (rooms : List (String × List (String × RoomUser))) :
    listLookup r (ensureRoom r rooms) = some ((listLookup r rooms).getD []) := by
  unfold ensureRoom
  cases h : listLookup r rooms with
  | none => simp [h, listLookup_set_self]
  | some room => simp [h]

theorem lookup_ensureRoom_ne {r r' : String} (h : r' ≠ r)
    (rooms : List (String × List (String × RoomUser))) :
    listLookup r' (ensureRoom r rooms) = listLookup r' rooms := by
  unfold ensureRoom
  cases h0 : listLookup r rooms with
  | none => simp [listLookup_set_ne h]
  | some room => rfl

theorem jsOrElse_cases (o : Option String) (d : String) :
    (∃ c, o = some c ∧ c ≠ "" ∧ jsOrElse o d = c) ∨
    ((o = none ∨ o = some "") ∧ jsOrElse o d = d) := by
  cases o with
  | none => exact Or.inr ⟨Or.inl rfl, rfl⟩
  | some c =>
    by_cases h : c = ""
    · subst h
      exact Or.inr ⟨Or.inr rfl, by simp [jsOrElse]⟩
    · exact Or.inl ⟨c, rfl, h, by simp [jsOrElse, h]⟩

/-! ## Claim C3 -/

/-- C3: a join succeeds iff both roomId and email are non-empty. With
either field empty (falsy), the sender receives exactly one `error` event
whose message contains "Room ID and email are required" and the state —
all three tables and the socket.io rooms — is unchanged. With both
non-empty, the joiner is registered in the SessionDirectory and receives
the `joined` acknowledgment. -/
theorem C3_join_validation (st : ServerState) (sid : String) (p : JoinPayload) :
    ((p.roomId = "" ∨ p.email = "") →
      (step (Event.join sid (some p)) st).state = st ∧
      (step (Event.join sid (some p)) st).emits =
        [(sid, Msg.errorEvent ("Failed to join room: " ++ "Room ID and email are required"))] ∧
      ∃ pre post,
        "Failed to join room: " ++ "Room ID and email are required" =
          pre ++ "Room ID and email are required" ++ post) ∧
    (¬(p.roomId = "" ∨ p.email = "") →
      listLookup sid (step (Event.join sid (some p)) st).state.userSocketMap =
        some ⟨p.email, p.roomId⟩ ∧
      ∃ users code rest,
        (step (Event.join sid (some p)) st).emits =
          (sid, Msg.joined p.roomId p.email users code) :: rest) := by
  constructor
  · intro h
    refine ⟨?_, ?_, "Failed to join room: ", "", by simp⟩
    · simp only [step, handleJoin, if_pos h]
    · simp only [step, handleJoin, if_pos h]
  · intro h
    constructor
    · simp only [step, handleJoin, if_neg h]
      exact listLookup_set_self _ _ _
    · simp only [step, handleJoin, if_neg h]
      exact ⟨_, _, _, rfl⟩

/-- Witness for C3 at a concrete empty roomId. -/
theorem C3_join_validation_witness :
    (step (Event.join "s1" (some ⟨"", "a@x.com"⟩)) initState).state = initState ∧
    (step (Event.join "s1" (some ⟨"", "a@x.com"⟩)) initState).emits =
      [("s1", Msg.errorEvent ("Failed to join room: " ++ "Room ID and email are required"))] ∧
    ∃ pre post,
      "Failed to join room: " ++ "Room ID and email are required" =
        pre ++ "Room ID and email are required" ++ post :=
  (C3_join_validation initState "s1" ⟨"", "a@x.com"⟩).1 (Or.inl rfl)

/-! ## Claim C5 -/

/-- C5 counterexample: the claim says every malformed payload is caught
within the handler and nothing participant-visible is emitted. Both parts
fail: a missing (non-object) payload throws during parameter destructuring
before any try/catch, so the error escapes the handler uncaught
(`raised = true`, shown here for the catch-less `user:call` handler), and
a join payload with empty fields is caught but does emit a
participant-visible `error` event to the sender. -/
theorem C5_counterexample :
    (step (Event.userCall "s1" none) initState).raised = true ∧
    (step (Event.join "s1" (some ⟨"", ""⟩)) initState).emits ≠ [] := by
  exact ⟨rfl, by decide⟩

/-- C5 amended: for every event type, a missing (non-object) payload
throws during parameter destructuring, so the error is NOT caught within
the handler; nevertheless no table is mutated and nothing is emitted. -/
theorem C5_missing_payload (e : Event) (st : ServerState) (h : payloadMissing e = true) :
    (step e st).raised = true ∧ (step e st).state = st ∧ (step e st).emits = [] := by
  cases e with
  | join s p =>
    cases p with
    | none => exact ⟨rfl, rfl, rfl⟩
    | some q => exact absurd h (by simp [payloadMissing])
  | codeChange s p =>
    cases p with
    | none => exact ⟨rfl, rfl, rfl⟩
    | some q => exact absurd h (by simp [payloadMissing])
  | cursorMove s p =>
    cases p with
    | none => exact ⟨rfl, rfl, rfl⟩
    | some q => exact absurd h (by simp [payloadMissing])
  | selectionChange s p =>
    cases p with
    | none => exact ⟨rfl, rfl, rfl⟩
    | some q => exact absurd h (by simp [payloadMissing])
  | disconnect s r => exact absurd h (by simp [payloadMissing])
  | userCall s p =>
    cases p with
    | none => exact ⟨rfl, rfl, rfl⟩
    | some q => exact absurd h (by simp [payloadMissing])
  | callAccept s p =>
    cases p with
    | none => exact ⟨rfl, rfl, rfl⟩
    | some q => exact absurd h (by simp [payloadMissing])
  | peerNegoNeed s p =>
    cases p with
    | none => exact ⟨rfl, rfl, rfl⟩
    | some q => exact absurd h (by simp [payloadMissing])
  | peerNegoDone s p =>
    cases p with
    | none => exact ⟨rfl, rfl, rfl⟩
    | some q => exact absurd h (by simp [payloadMissing])
  | screenStart s p =>
    cases p with
    | none => exact ⟨rfl, rfl, rfl⟩
    | some q => exact absurd h (by simp [payloadMissing])
  | screenStop s p =>
    cases p with
    | none => exact ⟨rfl, rfl, rfl⟩
    | some q => exact absurd h (by simp [payloadMissing])

/-- Witness for C5 amended at a concrete missing code-change payload. -/
theorem C5_missing_payload_witness :
    (step (Event.codeChange "s1" none) initState).raised = true ∧
    (step (Event.codeChange "s1" none) initState).state = initState ∧
    (step (Event.codeChange "s1" none) initState).emits = [] :=
  C5_missing_payload (Event.codeChange "s1" none) initState rfl

/-! ## Claim C6 -/

/-- C6: a disconnect for a connection with no record in the
SessionDirectory does not raise, mutates none of the three tables and
emits nothing. -/
theorem C6_disconnect_without_record (st : ServerState) (sid reason : String)
    (h : listLookup sid st.userSocketMap = none) :
    (step (Event.disconnect sid reason) st).state.userSocketMap = st.userSocketMap ∧
    (step (Event.disconnect sid reason) st).state.roomCodeMap = st.roomCodeMap ∧
    (step (Event.disconnect sid reason) st).state.activeRooms = st.activeRooms ∧
    (step (Event.disconnect sid reason) st).emits = [] ∧
    (step (Event.disconnect sid reason) st).raised = false := by
  simp only [step, handleDisconnect]
  rw [show ({ st with ioRooms := ioLeaveAll sid st.ioRooms } : ServerState).userSocketMap
      = st.userSocketMap from rfl, h]
  exact ⟨rfl, rfl, rfl, rfl, rfl⟩

/-- Witness for C6 at a concrete never-joined connection. -/
theorem C6_disconnect_without_record_witness :
    (step (Event.disconnect "ghost" "transport close") initState).state.userSocketMap =
      initState.userSocketMap ∧
    (step (Event.disconnect "ghost" "transport close") initState).state.roomCodeMap =
      initState.roomCodeMap ∧
    (step (Event.disconnect "ghost" "transport close") initState).state.activeRooms =
      initState.activeRooms ∧
    (step (Event.disconnect "ghost" "transport close") initState).emits = [] ∧
    (step (Event.disconnect "ghost" "transport close") initState).raised = false :=
  C6_disconnect_without_record initState "ghost" "transport close" rfl

/-! ## Claim C8 -/

/-- C8: code-change is last-writer-wins. Starting from any state, after
ordered code-change events E1 then E2 addressed to the same roomId, from
any senders and cursor positions, the SharedDocumentStore entry for that
roomId equals E2's content. -/
theorem C8_last_writer_wins (st : ServerState) (s1 s2 r c1 c2 q1 q2 : String) :
    listLookup r (run st [Event.codeChange s1 (some ⟨r, c1, q1⟩),
      Event.codeChange s2 (some ⟨r, c2, q2⟩)]).roomCodeMap = some c2 := by
  simp only [run, stepState, step, handleCodeChange]
  exact listLookup_set_self _ _ _

/-! ## Claim C10 -/

/-- C10: a code-change writes the SharedDocumentStore entry even when the
sender has no SessionDirectory record and no room with that roomId exists:
no joined-precondition or room-existence check guards the write. -/
theorem C10_codechange_unconditional (st : ServerState) (sid r c q : String)
    (_h1 : listLookup sid st.userSocketMap = none)
    (_h2 : listLookup r st.activeRooms = none) :
    listLookup r (step (Event.codeChange sid (some ⟨r, c, q⟩)) st).state.roomCodeMap =
      some c := by
  simp only [step, handleCodeChange]
  exact listLookup_set_self _ _ _

/-- Witness for C10: a never-joined sender writing a nonexistent room. -/
theorem C10_codechange_unconditional_witness :
    listLookup "s1" initState.userSocketMap = none ∧
    listLookup "r1" initState.activeRooms = none ∧
    listLookup "r1" (step (Event.codeChange "s1" (some ⟨"r1", "X", "0"⟩))
      initState).state.roomCodeMap = some "X" :=
  ⟨rfl, rfl, C10_codechange_unconditional initState "s1" "r1" "X" "0" rfl rfl⟩

/-! ## Claim C1: counterexample -/

/-- C1 counterexample: after the single join event
`join("r1", "a@x.com")` the room "r1" exists with one member, yet the
SharedDocumentStore has no entry for "r1" — the join handler never writes
`roomCodeMap` (the placeholder is only materialised when read), so
"members.size > 0 implies a document entry exists" is false. -/
theorem C1_counterexample :
    getRoomUsers "r1"
      (run initState [Event.join "s1" (some ⟨"r1", "a@x.com"⟩)]).activeRooms ≠ [] ∧
    listLookup "r1"
      (run initState [Event.join "s1" (some ⟨"r1", "a@x.com"⟩)]).roomCodeMap = none := by
  decide

/-! ## Claim C2: counterexample -/

/-- C2 counterexample: a connection that joins "r1" and then joins "r2"
is recorded in both rooms' member sets at once — the join handler never
removes the sender from its previous room. -/
theorem C2_counterexample :
    "s1" ∈ roomKeys "r1" (run initState [Event.join "s1" (some ⟨"r1", "a@x.com"⟩),
      Event.join "s1" (some ⟨"r2", "a@x.com"⟩)]).activeRooms ∧
    "s1" ∈ roomKeys "r2" (run initState [Event.join "s1" (some ⟨"r1", "a@x.com"⟩),
      Event.join "s1" (some ⟨"r2", "a@x.com"⟩)]).activeRooms ∧
    ("r1" : String) ≠ "r2" := by
  decide

/-! ## Claim C4 -/

/-- C4 counterexample: after a code-change sets the room content to the
empty string, the room's current document content is `""`, but the next
joiner's `joined` acknowledgment carries the placeholder instead of the
current content, because line 73 uses the falsy-guard `||`. -/
theorem C4_counterexample :
    listLookup "r1" (run initState [Event.join "s1" (some ⟨"r1", "a@x.com"⟩),
      Event.codeChange "s1" (some ⟨"r1", "", "0"⟩)]).roomCodeMap = some "" ∧
    (step (Event.join "s2" (some ⟨"r1", "b@x.com"⟩))
      (run initState [Event.join "s1" (some ⟨"r1", "a@x.com"⟩),
        Event.codeChange "s1" (some ⟨"r1", "", "0"⟩)])).emits.head? =
      some ("s2", Msg.joined "r1" "b@x.com"
        [⟨"a@x.com", "s1"⟩, ⟨"b@x.com", "s2"⟩] placeholderCode) ∧
    placeholderCode ≠ "" := by
  decide

/-- C4 amended: for every successful join, the `joined` acknowledgment
contains exactly the participants recorded for that room at that moment,
in insertion order, always including the joiner, together with the room's
stored content when that content is non-empty, and the placeholder
"// Start coding here..." when the room has no document entry or the
stored content is the empty string. -/
theorem C4_joined_ack (st : ServerState) (sid : String) (p : JoinPayload)
    (h1 : p.roomId ≠ "") (h2 : p.email ≠ "") :
    ∃ room,
      listLookup p.roomId (step (Event.join sid (some p)) st).state.activeRooms = some room ∧
      listLookup sid room = some ⟨p.email, sid⟩ ∧
      (step (Event.join sid (some p)) st).emits.head? =
        some (sid, Msg.joined p.roomId p.email (room.map Prod.snd)
          (jsOrElse (listLookup p.roomId st.roomCodeMap) placeholderCode)) ∧
      ((∃ c, listLookup p.roomId st.roomCodeMap = some c ∧ c ≠ "" ∧
          jsOrElse (listLookup p.roomId st.roomCodeMap) placeholderCode = c) ∨
        ((listLookup p.roomId st.roomCodeMap = none ∨
            listLookup p.roomId st.roomCodeMap = some "") ∧
          jsOrElse (listLookup p.roomId st.roomCodeMap) placeholderCode = placeholderCode)) := by
  have h : ¬(p.roomId = "" ∨ p.email = "") := by
    rintro (h | h)
    · exact h1 h
    · exact h2 h
  refine ⟨listSet sid ⟨p.email, sid⟩
    ((listLookup p.roomId (ensureRoom p.roomId st.activeRooms)).getD []), ?_, ?_, ?_, ?_⟩
  · simp only [step, handleJoin, if_neg h]
    exact listLookup_set_self _ _ _
  · exact listLookup_set_self _ _ _
  · simp only [step, handleJoin, if_neg h, getRoomUsers, List.head?]
    rw [listLookup_set_self]
  · exact jsOrElse_cases _ _

/-- Witness for C4 amended at a concrete first join. -/
theorem C4_joined_ack_witness :
    ∃ room,
      listLookup "r1" (step (Event.join "s1" (some ⟨"r1", "a@x.com"⟩))
        initState).state.activeRooms = some room ∧
      listLookup "s1" room = some ⟨"a@x.com", "s1"⟩ ∧
      (step (Event.join "s1" (some ⟨"r1", "a@x.com"⟩)) initState).emits.head? =
        some ("s1", Msg.joined "r1" "a@x.com" (room.map Prod.snd)
          (jsOrElse (listLookup "r1" initState.roomCodeMap) placeholderCode)) ∧
      ((∃ c, listLookup "r1" initState.roomCodeMap = some c ∧ c ≠ "" ∧
          jsOrElse (listLookup "r1" initState.roomCodeMap) placeholderCode = c) ∨
        ((listLookup "r1" initState.roomCodeMap = none ∨
            listLookup "r1" initState.roomCodeMap = some "") ∧
          jsOrElse (listLookup "r1" initState.roomCodeMap) placeholderCode =
            placeholderCode)) :=
  C4_joined_ack initState "s1" ⟨"r1", "a@x.com"⟩ (by decide) (by decide)

/-! ## Characterisations of the join and disconnect steps -/

theorem listSet_ne_nil {α β : Type} [DecidableEq α] (k : α) (v : β) (l : List (α × β)) :
    listSet k v l ≠ [] := by
  cases l with
  | nil => simp [listSet]
  | cons hd tl =>
    obtain ⟨k0, v0⟩ := hd
    by_cases h : k0 = k <;> simp [listSet, h]

theorem handleJoin_valid {sid : String} {p : JoinPayload} {st : ServerState}
    (h : ¬(p.roomId = "" ∨ p.email = "")) :
    handleJoin sid (some p) st =
      ⟨⟨listSet sid ⟨p.email, p.roomId⟩ st.userSocketMap, st.roomCodeMap,
        listSet p.roomId (listSet sid ⟨p.email, sid⟩
          ((listLookup p.roomId (ensureRoom p.roomId st.activeRooms)).getD []))
          (ensureRoom p.roomId st.activeRooms),
        ioJoin p.roomId sid st.ioRooms⟩,
       (sid, Msg.joined p.roomId p.email
          (getRoomUsers p.roomId (listSet p.roomId (listSet sid ⟨p.email, sid⟩
            ((listLookup p.roomId (ensureRoom p.roomId st.activeRooms)).getD []))
            (ensureRoom p.roomId st.activeRooms)))
          (jsOrElse (listLookup p.roomId st.roomCodeMap) placeholderCode)) ::
        socketTo sid p.roomId (ioJoin p.roomId sid st.ioRooms) (Msg.userJoined p.email sid),
       false⟩ := by
  simp only [handleJoin, if_neg h]

theorem handleJoin_invalid {sid : String} {p : JoinPayload} {st : ServerState}
    (h : p.roomId = "" ∨ p.email = "") :
    handleJoin sid (some p) st =
      ⟨st, [(sid, Msg.errorEvent ("Failed to join room: " ++ "Room ID and email are required"))],
        false⟩ := by
  simp only [handleJoin, if_pos h]

theorem handleDisconnect_none {sid : String} {st : ServerState}
    (h : listLookup sid st.userSocketMap = none) :
    handleDisconnect sid st =
      ⟨{ st with ioRooms := ioLeaveAll sid st.ioRooms }, [], false⟩ := by
  simp only [handleDisconnect]
  rw [show ({ st with ioRooms := ioLeaveAll sid st.ioRooms } : ServerState).userSocketMap
      = st.userSocketMap from rfl, h]

theorem handleDisconnect_no_room {sid : String} {st : ServerState} {ud : UserData}
    (h1 : listLookup sid st.userSocketMap = some ud)
    (h2 : listLookup ud.roomId st.activeRooms = none) :
    handleDisconnect sid st =
      ⟨⟨listDelete sid st.userSocketMap, st.roomCodeMap, st.activeRooms,
        ioLeaveAll sid st.ioRooms⟩, [], false⟩ := by
  simp only [handleDisconnect, h1, h2]

theorem handleDisconnect_room_empty {sid : String} {st : ServerState} {ud : UserData}
    {room : List (String × RoomUser)}
    (h1 : listLookup sid st.userSocketMap = some ud)
    (h2 : listLookup ud.roomId st.activeRooms = some room)
    (h3 : (listDelete sid room).length = 0) :
    handleDisconnect sid st =
      ⟨⟨listDelete sid st.userSocketMap, listDelete ud.roomId st.roomCodeMap,
        listDelete ud.roomId st.activeRooms, ioLeaveAll sid st.ioRooms⟩,
        socketTo sid ud.roomId (ioLeaveAll sid st.ioRooms)
          (Msg.userDisconnected sid ud.email), false⟩ := by
  simp only [handleDisconnect, h1, h2, if_pos h3]

theorem handleDisconnect_room_nonempty {sid : String} {st : ServerState} {ud : UserData}
    {room : List (String × RoomUser)}
    (h1 : listLookup sid st.userSocketMap = some ud)
    (h2 : listLookup ud.roomId st.activeRooms = some room)
    (h3 : ¬ (listDelete sid room).length = 0) :
    handleDisconnect sid st =
      ⟨⟨listDelete sid st.userSocketMap, st.roomCodeMap,
        listSet ud.roomId (listDelete sid room) st.activeRooms, ioLeaveAll sid st.ioRooms⟩,
        socketTo sid ud.roomId (ioLeaveAll sid st.ioRooms)
          (Msg.userDisconnected sid ud.email), false⟩ := by
  simp only [handleDisconnect, h1, h2, if_neg h3]

/-! ## Claim C1: amended invariant over join/disconnect traces -/

/-- The invariant of join/disconnect traces: the document store is empty
and no room record has an empty member map. -/
def JoinDisconnectInv (st : ServerState) : Prop :=
  st.roomCodeMap = [] ∧ ∀ r, listLookup r st.activeRooms ≠ some []

theorem stepState_join_disconnect_inv (e : Event) (st : ServerState)
    (he : isJoinOrDisconnect e = true) (hst : JoinDisconnectInv st) :
    JoinDisconnectInv (stepState e st) := by
  obtain ⟨hdocs, hrooms⟩ := hst
  cases e with
  | join s p =>
    cases p with
    | none => exact ⟨hdocs, hrooms⟩
    | some q =>
      by_cases hv : q.roomId = "" ∨ q.email = ""
      · rw [stepState, step, handleJoin_invalid hv]
        exact ⟨hdocs, hrooms⟩
      · rw [stepState, step, handleJoin_valid hv]
        refine ⟨hdocs, fun r => ?_⟩
        by_cases hr : r = q.roomId
        · subst hr
          rw [listLookup_set_self]
          intro hcon
          exact listSet_ne_nil _ _ _ (Option.some.inj hcon)
        · rw [listLookup_set_ne hr, lookup_ensureRoom_ne hr]
          exact hrooms r
  | disconnect s reason =>
    cases hu : listLookup s st.userSocketMap with
    | none =>
      rw [stepState, step, handleDisconnect_none hu]
      exact ⟨hdocs, hrooms⟩
    | some ud =>
      cases hroom : listLookup ud.roomId st.activeRooms with
      | none =>
        rw [stepState, step, handleDisconnect_no_room hu hroom]
        exact ⟨hdocs, hrooms⟩
      | some room =>
        by_cases hlen : (listDelete s room).length = 0
        · rw [stepState, step, handleDisconnect_room_empty hu hroom hlen]
          refine ⟨by rw [hdocs]; rfl, fun r => ?_⟩
          by_cases hr : r = ud.roomId
          · subst hr
            rw [listLookup_delete_self]
            exact fun hcon => Option.noConfusion hcon
          · rw [listLookup_delete_ne hr]
            exact hrooms r
        · rw [stepState, step, handleDisconnect_room_nonempty hu hroom hlen]
          refine ⟨hdocs, fun r => ?_⟩
          by_cases hr : r = ud.roomId
          · subst hr
            rw [listLookup_set_self]
            intro hcon
            exact hlen (by rw [Option.some.inj hcon]; rfl)
          · rw [listLookup_set_ne hr]
            exact hrooms r
  | codeChange s p => simp [isJoinOrDisconnect] at he
  | cursorMove s p => simp [isJoinOrDisconnect] at he
  | selectionChange s p => simp [isJoinOrDisconnect] at he
  | userCall s p => simp [isJoinOrDisconnect] at he
  | callAccept s p => simp [isJoinOrDisconnect] at he
  | peerNegoNeed s p => simp [isJoinOrDisconnect] at he
  | peerNegoDone s p => simp [isJoinOrDisconnect] at he
  | screenStart s p => simp [isJoinOrDisconnect] at he
  | screenStop s p => simp [isJoinOrDisconnect] at he

theorem run_join_disconnect_inv (evs : List Event) (st : ServerState)
    (hst : JoinDisconnectInv st) (h : ∀ e ∈ evs, isJoinOrDisconnect e = true) :
    JoinDisconnectInv (run st evs) := by
  induction evs generalizing st with
  | nil => exact hst
  | cons e evs ih =>
    exact ih (stepState e st)
      (stepState_join_disconnect_inv e st (h e (List.mem_cons_self _ _)) hst)
      (fun e' he' => h e' (List.mem_cons_of_mem _ he'))

/-- C1 amended: after any sequence of join/disconnect events, every
existing room record has at least one member (so a room with
members.size == 0 has neither a room record nor a document entry), and
the SharedDocumentStore is empty — a document entry is only ever created
by a code-change, so "members.size > 0 implies a document entry exists"
does not hold. -/
theorem C1_join_disconnect_state (evs : List Event)
    (h : ∀ e ∈ evs, isJoinOrDisconnect e = true) :
    (run initState evs).roomCodeMap = [] ∧
    ∀ r, listLookup r (run initState evs).activeRooms ≠ some [] :=
  run_join_disconnect_inv evs initState ⟨rfl, fun _ => Option.noConfusion⟩ h

/-- Witness for C1 amended on a concrete join/disconnect trace. -/
theorem C1_join_disconnect_state_witness :
    (run initState [Event.join "s1" (some ⟨"r1", "a@x.com"⟩),
      Event.join "s2" (some ⟨"r1", "b@x.com"⟩),
      Event.disconnect "s1" "transport close"]).roomCodeMap = [] ∧
    ∀ r, listLookup r (run initState [Event.join "s1" (some ⟨"r1", "a@x.com"⟩),
      Event.join "s2" (some ⟨"r1", "b@x.com"⟩),
      Event.disconnect "s1" "transport close"]).activeRooms ≠ some [] :=
  C1_join_disconnect_state _ (by decide)

/-! ## Claim C9 -/

/-- C9: a connection `c` already recorded in room `r1`'s member set that
processes a join for a different room `r2` gets its SessionDirectory
entry overwritten to `r2` while `r1`'s member map stays unchanged; its
later disconnect removes it only from `r2`: afterwards `c` is still in
`r1`'s member map, so `r1`'s room record and document entry survive that
connection's disconnect untouched. -/
theorem C9_stale_membership (st : ServerState) (c e2 r1 r2 reason : String) (m : RoomUser)
    (hmem : listLookup c ((listLookup r1 st.activeRooms).getD []) = some m)
    (hne : r1 ≠ r2) (hr2 : r2 ≠ "") (he : e2 ≠ "") :
    listLookup c (stepState (Event.join c (some ⟨r2, e2⟩)) st).userSocketMap =
      some ⟨e2, r2⟩ ∧
    listLookup r1 (stepState (Event.join c (some ⟨r2, e2⟩)) st).activeRooms =
      listLookup r1 st.activeRooms ∧
    listLookup c ((listLookup r2 (stepState (Event.disconnect c reason)
      (stepState (Event.join c (some ⟨r2, e2⟩)) st)).activeRooms).getD []) = none ∧
    listLookup r1 (stepState (Event.disconnect c reason)
      (stepState (Event.join c (some ⟨r2, e2⟩)) st)).activeRooms =
      listLookup r1 st.activeRooms ∧
    listLookup c ((listLookup r1 (stepState (Event.disconnect c reason)
      (stepState (Event.join c (some ⟨r2, e2⟩)) st)).activeRooms).getD []) = some m ∧
    listLookup r1 (stepState (Event.disconnect c reason)
      (stepState (Event.join c (some ⟨r2, e2⟩)) st)).roomCodeMap =
      listLookup r1 st.roomCodeMap := by
  have hv : ¬((⟨r2, e2⟩ : JoinPayload).roomId = "" ∨ (⟨r2, e2⟩ : JoinPayload).email = "") := by
    rintro (h | h)
    · exact hr2 h
    · exact he h
  have e1 : stepState (Event.join c (some ⟨r2, e2⟩)) st =
      ⟨listSet c ⟨e2, r2⟩ st.userSocketMap, st.roomCodeMap,
        listSet r2 (listSet c ⟨e2, c⟩ ((listLookup r2 (ensureRoom r2 st.activeRooms)).getD []))
          (ensureRoom r2 st.activeRooms),
        ioJoin r2 c st.ioRooms⟩ := by
    rw [stepState, step, handleJoin_valid hv]
  rw [e1]
  have hu1 : listLookup c (listSet c ⟨e2, r2⟩ st.userSocketMap) =
      some (⟨e2, r2⟩ : UserData) := listLookup_set_self _ _ _
  have ha1 : listLookup r1
      (listSet r2 (listSet c ⟨e2, c⟩ ((listLookup r2 (ensureRoom r2 st.activeRooms)).getD []))
        (ensureRoom r2 st.activeRooms)) = listLookup r1 st.activeRooms := by
    rw [listLookup_set_ne hne, lookup_ensureRoom_ne hne]
  have ha2 : listLookup r2
      (listSet r2 (listSet c ⟨e2, c⟩ ((listLookup r2 (ensureRoom r2 st.activeRooms)).getD []))
        (ensureRoom r2 st.activeRooms)) =
      some (listSet c ⟨e2, c⟩ ((listLookup r2 (ensureRoom r2 st.activeRooms)).getD [])) :=
    listLookup_set_self _ _ _
  by_cases hlen : (listDelete c
      (listSet c ⟨e2, c⟩ ((listLookup r2 (ensureRoom r2 st.activeRooms)).getD []))).length = 0
  · have e2' : stepState (Event.disconnect c reason)
        (⟨listSet c ⟨e2, r2⟩ st.userSocketMap, st.roomCodeMap,
          listSet r2 (listSet c ⟨e2, c⟩
            ((listLookup r2 (ensureRoom r2 st.activeRooms)).getD []))
            (ensureRoom r2 st.activeRooms),
          ioJoin r2 c st.ioRooms⟩ : ServerState) =
        ⟨listDelete c (listSet c ⟨e2, r2⟩ st.userSocketMap),
          listDelete r2 st.roomCodeMap,
          listDelete r2 (listSet r2 (listSet c ⟨e2, c⟩
            ((listLookup r2 (ensureRoom r2 st.activeRooms)).getD []))
            (ensureRoom r2 st.activeRooms)),
          ioLeaveAll c (ioJoin r2 c st.ioRooms)⟩ := by
      rw [stepState, step, handleDisconnect_room_empty hu1 ha2 hlen]
    rw [e2']
    refine ⟨hu1, ha1, ?_, ?_, ?_, ?_⟩
    · rw [listLookup_delete_self]
      rfl
    · rw [listLookup_delete_ne hne, ha1]
    · rw [listLookup_delete_ne hne, ha1]
      exact hmem
    · rw [listLookup_delete_ne hne]
  · have e2' : stepState (Event.disconnect c reason)
        (⟨listSet c ⟨e2, r2⟩ st.userSocketMap, st.roomCodeMap,
          listSet r2 (listSet c ⟨e2, c⟩
            ((listLookup r2 (ensureRoom r2 st.activeRooms)).getD []))
            (ensureRoom r2 st.activeRooms),
          ioJoin r2 c st.ioRooms⟩ : ServerState) =
        ⟨listDelete c (listSet c ⟨e2, r2⟩ st.userSocketMap),
          st.roomCodeMap,
          listSet r2 (listDelete c (listSet c ⟨e2, c⟩
            ((listLookup r2 (ensureRoom r2 st.activeRooms)).getD [])))
            (listSet r2 (listSet c ⟨e2, c⟩
              ((listLookup r2 (ensureRoom r2 st.activeRooms)).getD []))
              (ensureRoom r2 st.activeRooms)),
          ioLeaveAll c (ioJoin r2 c st.ioRooms)⟩ := by
      rw [stepState, step, handleDisconnect_room_nonempty hu1 ha2 hlen]
    rw [e2']
    refine ⟨hu1, ha1, ?_, ?_, ?_, rfl⟩
    · rw [listLookup_set_self]
      exact listLookup_delete_self _ _
    · rw [listLookup_set_ne hne, ha1]
    · rw [listLookup_set_ne hne, ha1]
      exact hmem

/-- Witness for C9 on a concrete double-join then disconnect. -/
theorem C9_stale_membership_witness :
    listLookup "c" ((listLookup "r1" (run initState
      [Event.join "c" (some ⟨"r1", "a@x.com"⟩)]).activeRooms).getD []) =
        some ⟨"a@x.com", "c"⟩ ∧
    listLookup "c" (stepState (Event.join "c" (some ⟨"r2", "a@x.com"⟩))
      (run initState [Event.join "c" (some ⟨"r1", "a@x.com"⟩)])).userSocketMap =
      some ⟨"a@x.com", "r2"⟩ ∧
    listLookup "r1" (stepState (Event.disconnect "c" "transport close")
      (stepState (Event.join "c" (some ⟨"r2", "a@x.com"⟩))
        (run initState [Event.join "c" (some ⟨"r1", "a@x.com"⟩)]))).activeRooms =
      listLookup "r1" (run initState [Event.join "c" (some ⟨"r1", "a@x.com"⟩)]).activeRooms ∧
    listLookup "c" ((listLookup "r1" (stepState (Event.disconnect "c" "transport close")
      (stepState (Event.join "c" (some ⟨"r2", "a@x.com"⟩))
        (run initState [Event.join "c" (some ⟨"r1", "a@x.com"⟩)]))).activeRooms).getD []) =
      some ⟨"a@x.com", "c"⟩ := by
  have h := C9_stale_membership (run initState [Event.join "c" (some ⟨"r1", "a@x.com"⟩)])
    "c" "a@x.com" "r1" "r2" "transport close" ⟨"a@x.com", "c"⟩
    (by decide) (by decide) (by decide) (by decide)
  exact ⟨by decide, h.1, h.2.2.2.1, h.2.2.2.2.1⟩

/-! ## socket.io room facts -/

theorem lookup_eq_none_of_not_mem_keys {α β : Type} [DecidableEq α] {k : α}
    {l : List (α × β)} (h : k ∉ l.map Prod.fst) : listLookup k l = none := by
  cases hl : listLookup k l with
  | none => rfl
  | some v => exact absurd (mem_keys_of_lookup_isSome (by simp [hl])) h

theorem nodup_append_singleton {α : Type} {x : α} {l : List α}
    (h1 : l.Nodup) (h2 : x ∉ l) : (l ++ [x]).Nodup := by
  induction l with
  | nil => exact List.nodup_singleton x
  | cons z rest ih =>
    rw [List.cons_append, List.nodup_cons]
    rw [List.nodup_cons] at h1
    refine ⟨?_, ih h1.2 (fun hm => h2 (List.mem_cons_of_mem _ hm))⟩
    intro hz
    rcases List.mem_append.mp hz with h | h
    · exact h1.1 h
    · have hzx : z = x := List.mem_singleton.mp h
      exact h2 (by rw [hzx]; exact List.mem_cons_self _ _)

theorem ioMembers_ioJoin_self (r s : String) (ior : List (String × List String)) :
    ioMembers r (ioJoin r s ior) =
      if s ∈ ioMembers r ior then ioMembers r ior else ioMembers r ior ++ [s] := by
  simp only [ioJoin, ioMembers, listLookup_set_self, Option.getD_some]

theorem ioMembers_ioJoin_ne {r r' : String} (h : r' ≠ r) (s : String)
    (ior : List (String × List String)) :
    ioMembers r' (ioJoin r s ior) = ioMembers r' ior := by
  simp only [ioJoin, ioMembers, listLookup_set_ne h]

theorem ioMembers_leaveAll (s r : String) (ior : List (String × List String)) :
    ioMembers r (ioLeaveAll s ior) = removeAll s (ioMembers r ior) := by
  unfold ioMembers ioLeaveAll
  rw [listLookup_map_values]
  cases listLookup r ior with
  | none => rfl
  | some l => rfl

/-! ## Effect of a valid join on the tables -/

theorem join_state_eq {c : String} {p : JoinPayload} (st : ServerState)
    (hv : ¬(p.roomId = "" ∨ p.email = "")) :
    stepState (Event.join c (some p)) st =
      ⟨listSet c ⟨p.email, p.roomId⟩ st.userSocketMap, st.roomCodeMap,
        listSet p.roomId (listSet c ⟨p.email, c⟩
          ((listLookup p.roomId (ensureRoom p.roomId st.activeRooms)).getD []))
          (ensureRoom p.roomId st.activeRooms),
        ioJoin p.roomId c st.ioRooms⟩ := by
  rw [stepState, step, handleJoin_valid hv]

theorem join_roomKeys_self {c : String} {p : JoinPayload} {st : ServerState}
    (hv : ¬(p.roomId = "" ∨ p.email = "")) (hc : c ∉ roomKeys p.roomId st.activeRooms) :
    roomKeys p.roomId (stepState (Event.join c (some p)) st).activeRooms =
      roomKeys p.roomId st.activeRooms ++ [c] := by
  rw [join_state_eq st hv]
  dsimp only
  unfold roomKeys
  rw [listLookup_set_self, lookup_ensureRoom_self]
  dsimp only [Option.getD_some]
  exact keys_set_of_lookup_none (lookup_eq_none_of_not_mem_keys hc) _

theorem join_roomKeys_ne {c : String} {p : JoinPayload} {st : ServerState} {r : String}
    (hv : ¬(p.roomId = "" ∨ p.email = "")) (hr : r ≠ p.roomId) :
    roomKeys r (stepState (Event.join c (some p)) st).activeRooms =
      roomKeys r st.activeRooms := by
  rw [join_state_eq st hv]
  dsimp only
  unfold roomKeys
  rw [listLookup_set_ne hr, lookup_ensureRoom_ne hr]

theorem join_ioMembers_self {c : String} {p : JoinPayload} {st : ServerState}
    (hv : ¬(p.roomId = "" ∨ p.email = "")) (hc : c ∉ ioMembers p.roomId st.ioRooms) :
    ioMembers p.roomId (stepState (Event.join c (some p)) st).ioRooms =
      ioMembers p.roomId st.ioRooms ++ [c] := by
  rw [join_state_eq st hv]
  dsimp only
  rw [ioMembers_ioJoin_self, if_neg hc]

theorem join_ioMembers_ne {c : String} {p : JoinPayload} {st : ServerState} {r : String}
    (hv : ¬(p.roomId = "" ∨ p.email = "")) (hr : r ≠ p.roomId) :
    ioMembers r (stepState (Event.join c (some p)) st).ioRooms =
      ioMembers r st.ioRooms := by
  rw [join_state_eq st hv]
  dsimp only
  exact ioMembers_ioJoin_ne hr c st.ioRooms

theorem join_userSocketMap {c : String} {p : JoinPayload} (st : ServerState)
    (hv : ¬(p.roomId = "" ∨ p.email = "")) :
    (stepState (Event.join c (some p)) st).userSocketMap =
      listSet c ⟨p.email, p.roomId⟩ st.userSocketMap := by
  rw [join_state_eq st hv]

/-! ## Reachable-state invariants for single-join traces -/

/-- A connection with no trace in the server state. -/
def cFresh (c : String) (st : ServerState) : Prop :=
  listLookup c st.userSocketMap = none ∧
  (∀ r, c ∉ roomKeys r st.activeRooms) ∧
  (∀ r, c ∉ ioMembers r st.ioRooms)

/-- socket.io room membership agrees with the recorded room membership. -/
def InvSock (st : ServerState) : Prop :=
  ∀ r, ioMembers r st.ioRooms = roomKeys r st.activeRooms

/-- Every recorded member's SessionDirectory entry names that room. -/
def InvRec (st : ServerState) : Prop :=
  ∀ c r, c ∈ roomKeys r st.activeRooms →
    ∃ e, listLookup c st.userSocketMap = some ⟨e, r⟩

/-- Member lists never contain a socket twice. -/
def InvND (st : ServerState) : Prop := ∀ r, (roomKeys r st.activeRooms).Nodup

/-- The combined invariant. -/
def StInv (st : ServerState) : Prop := InvSock st ∧ InvRec st ∧ InvND st

theorem initState_inv : StInv initState := by
  refine ⟨fun r => rfl, fun c r h => ?_, fun r => List.Pairwise.nil⟩
  simp [roomKeys, initState, listLookup] at h

theorem initState_fresh (c : String) : cFresh c initState := by
  refine ⟨rfl, fun r h => ?_, fun r h => ?_⟩
  · simp [roomKeys, initState, listLookup] at h
  · simp [ioMembers, initState, listLookup] at h

theorem join_fresh_inv {c : String} {p : JoinPayload} {st : ServerState}
    (hInv : StInv st) (hFresh : cFresh c st) :
    StInv (stepState (Event.join c (some p)) st) := by
  obtain ⟨hio, hrec, hnd⟩ := hInv
  obtain ⟨hfu, hfr, hfi⟩ := hFresh
  by_cases hv : p.roomId = "" ∨ p.email = ""
  · rw [stepState, step, handleJoin_invalid hv]
    exact ⟨hio, hrec, hnd⟩
  · refine ⟨?_, ?_, ?_⟩
    · intro r
      by_cases hr : r = p.roomId
      · subst hr
        rw [join_ioMembers_self hv (hfi _), join_roomKeys_self hv (hfr _), hio]
      · rw [join_ioMembers_ne hv hr, join_roomKeys_ne hv hr]
        exact hio r
    · intro c' r hmem
      rw [join_userSocketMap st hv]
      by_cases hr : r = p.roomId
      · subst hr
        rw [join_roomKeys_self hv (hfr _)] at hmem
        rcases List.mem_append.mp hmem with hm | hm
        · obtain ⟨e, he⟩ := hrec c' p.roomId hm
          have hcc : c' ≠ c := fun hq => hfr p.roomId (hq ▸ hm)
          exact ⟨e, by rw [listLookup_set_ne hcc]; exact he⟩
        · have hcc : c' = c := List.mem_singleton.mp hm
          subst hcc
          exact ⟨p.email, listLookup_set_self _ _ _⟩
      · rw [join_roomKeys_ne hv hr] at hmem
        obtain ⟨e, he⟩ := hrec c' r hmem
        have hcc : c' ≠ c := fun hq => hfr r (hq ▸ hmem)
        exact ⟨e, by rw [listLookup_set_ne hcc]; exact he⟩
    · intro r
      by_cases hr : r = p.roomId
      · subst hr
        rw [join_roomKeys_self hv (hfr _)]
        exact nodup_append_singleton (hnd _) (hfr _)
      · rw [join_roomKeys_ne hv hr]
        exact hnd r

theorem disconnect_inv {c reason : String} {st : ServerState} (hInv : StInv st) :
    StInv (stepState (Event.disconnect c reason) st) := by
  obtain ⟨hio, hrec, hnd⟩ := hInv
  cases hu : listLookup c st.userSocketMap with
  | none =>
    have hcout : ∀ r, c ∉ roomKeys r st.activeRooms := by
      intro r hcr
      obtain ⟨e, he⟩ := hrec c r hcr
      rw [hu] at he
      exact Option.noConfusion he
    rw [stepState, step, handleDisconnect_none hu]
    refine ⟨?_, hrec, hnd⟩
    intro r
    dsimp only [InvSock]
    rw [ioMembers_leaveAll, hio, removeAll_eq_of_not_mem (hcout r)]
  | some ud =>
    have hcr_only : ∀ r, c ∈ roomKeys r st.activeRooms → r = ud.roomId := by
      intro r hcr
      obtain ⟨e, he⟩ := hrec c r hcr
      have h2 : (⟨e, r⟩ : UserData) = ud := Option.some.inj (he.symm.trans hu)
      rw [← h2]
    cases hroom : listLookup ud.roomId st.activeRooms with
    | none =>
      have hcout : ∀ r, c ∉ roomKeys r st.activeRooms := by
        intro r hcr
        have hr := hcr_only r hcr
        subst hr
        rw [roomKeys, hroom] at hcr
        simp at hcr
      rw [stepState, step, handleDisconnect_no_room hu hroom]
      refine ⟨?_, ?_, hnd⟩
      · intro r
        dsimp only [InvSock]
        rw [ioMembers_leaveAll, hio, removeAll_eq_of_not_mem (hcout r)]
      · intro c' r hmem
        obtain ⟨e, he⟩ := hrec c' r hmem
        have hcc : c' ≠ c := fun hq => hcout r (hq ▸ hmem)
        exact ⟨e, by dsimp only; rw [listLookup_delete_ne hcc]; exact he⟩
    | some room =>
      have hcne : ∀ r, r ≠ ud.roomId → c ∉ roomKeys r st.activeRooms :=
        fun r hne hcr => hne (hcr_only r hcr)
      have hkeys : roomKeys ud.roomId st.activeRooms = room.map Prod.fst := by
        rw [roomKeys, hroom]
        rfl
      by_cases hlen : (listDelete c room).length = 0
      · have hnilroom : listDelete c room = [] := List.length_eq_zero.mp hlen
        rw [stepState, step, handleDisconnect_room_empty hu hroom hlen]
        refine ⟨?_, ?_, ?_⟩
        · intro r
          dsimp only [InvSock]
          rw [ioMembers_leaveAll, hio]
          by_cases hr : r = ud.roomId
          · subst hr
            rw [hkeys, ← keys_delete, hnilroom, roomKeys, listLookup_delete_self]
            rfl
          · rw [removeAll_eq_of_not_mem (hcne r hr)]
            unfold roomKeys
            rw [listLookup_delete_ne hr]
        · intro c' r hmem
          dsimp only [roomKeys] at hmem
          by_cases hr : r = ud.roomId
          · subst hr
            rw [listLookup_delete_self] at hmem
            simp at hmem
          · rw [listLookup_delete_ne hr, ← roomKeys] at hmem
            obtain ⟨e, he⟩ := hrec c' r hmem
            have hcc : c' ≠ c := fun hq => hcne r hr (hq ▸ hmem)
            exact ⟨e, by dsimp only; rw [listLookup_delete_ne hcc]; exact he⟩
        · intro r
          dsimp only [roomKeys]
          by_cases hr : r = ud.roomId
          · subst hr
            rw [listLookup_delete_self]
            exact List.Pairwise.nil
          · rw [listLookup_delete_ne hr, ← roomKeys]
            exact hnd r
      · rw [stepState, step, handleDisconnect_room_nonempty hu hroom hlen]
        refine ⟨?_, ?_, ?_⟩
        · intro r
          dsimp only [InvSock]
          rw [ioMembers_leaveAll, hio]
          by_cases hr : r = ud.roomId
          · subst hr
            rw [hkeys, ← keys_delete, roomKeys, listLookup_set_self]
            rfl
          · rw [removeAll_eq_of_not_mem (hcne r hr)]
            unfold roomKeys
            rw [listLookup_set_ne hr]
        · intro c' r hmem
          dsimp only [roomKeys] at hmem
          by_cases hr : r = ud.roomId
          · subst hr
            rw [listLookup_set_self] at hmem
            dsimp only [Option.getD_some] at hmem
            rw [keys_delete] at hmem
            have hm2 := mem_removeAll_iff.mp hmem
            rw [← hkeys] at hm2
            obtain ⟨e, he⟩ := hrec c' ud.roomId hm2.1
            exact ⟨e, by dsimp only; rw [listLookup_delete_ne hm2.2]; exact he⟩
          · rw [listLookup_set_ne hr, ← roomKeys] at hmem
            obtain ⟨e, he⟩ := hrec c' r hmem
            have hcc : c' ≠ c := fun hq => hcne r hr (hq ▸ hmem)
            exact ⟨e, by dsimp only; rw [listLookup_delete_ne hcc]; exact he⟩
        · intro r
          dsimp only [roomKeys]
          by_cases hr : r = ud.roomId
          · subst hr
            rw [listLookup_set_self]
            dsimp only [Option.getD_some]
            rw [keys_delete]
            exact removeAll_nodup (hkeys ▸ hnd ud.roomId)
          · rw [listLookup_set_ne hr, ← roomKeys]
            exact hnd r

/-! ## Preservation over arbitrary steps -/

theorem lookup_delete_none {α β : Type} [DecidableEq α] {k s : α} {l : List (α × β)}
    (h : listLookup k l = none) : listLookup k (listDelete s l) = none := by
  by_cases hks : k = s
  · subst hks
    exact listLookup_delete_self _ _
  · rw [listLookup_delete_ne hks]
    exact h

theorem not_mem_keys_set {α β : Type} [DecidableEq α] {c s : α} {v : β} {l : List (α × β)}
    (hcs : c ≠ s) (hc : c ∉ l.map Prod.fst) :
    c ∉ (listSet s v l).map Prod.fst := by
  intro hmem
  have h1 := lookup_isSome_of_mem_keys hmem
  rw [listLookup_set_ne hcs] at h1
  exact hc (mem_keys_of_lookup_isSome h1)

theorem join_roomKeys_self_general {s : String} {q : JoinPayload} (st : ServerState)
    (hv : ¬(q.roomId = "" ∨ q.email = "")) :
    roomKeys q.roomId (stepState (Event.join s (some q)) st).activeRooms =
      (listSet s ⟨q.email, s⟩ ((listLookup q.roomId st.activeRooms).getD [])).map Prod.fst := by
  rw [join_state_eq st hv]
  dsimp only
  unfold roomKeys
  rw [listLookup_set_self, lookup_ensureRoom_self]
  rfl

theorem join_ioMembers_self_general {s : String} {q : JoinPayload} (st : ServerState)
    (hv : ¬(q.roomId = "" ∨ q.email = "")) :
    ioMembers q.roomId (stepState (Event.join s (some q)) st).ioRooms =
      if s ∈ ioMembers q.roomId st.ioRooms then ioMembers q.roomId st.ioRooms
      else ioMembers q.roomId st.ioRooms ++ [s] := by
  rw [join_state_eq st hv]
  dsimp only
  exact ioMembers_ioJoin_self _ _ _

theorem step_inv (e : Event) (st : ServerState) (hInv : StInv st)
    (hj : ∀ c p, e = Event.join c p → cFresh c st) :
    StInv (stepState e st) := by
  cases e with
  | join s p =>
    cases p with
    | none => exact hInv
    | some q => exact join_fresh_inv hInv (hj s (some q) rfl)
  | codeChange s p =>
    cases p with
    | none => exact hInv
    | some q => exact hInv
  | cursorMove s p =>
    cases p with
    | none => exact hInv
    | some q => exact hInv
  | selectionChange s p =>
    cases p with
    | none => exact hInv
    | some q => exact hInv
  | disconnect s r => exact disconnect_inv hInv
  | userCall s p =>
    cases p with
    | none => exact hInv
    | some q => exact hInv
  | callAccept s p =>
    cases p with
    | none => exact hInv
    | some q => exact hInv
  | peerNegoNeed s p =>
    cases p with
    | none => exact hInv
    | some q => exact hInv
  | peerNegoDone s p =>
    cases p with
    | none => exact hInv
    | some q => exact hInv
  | screenStart s p =>
    cases p with
    | none => exact hInv
    | some q => exact hInv
  | screenStop s p =>
    cases p with
    | none => exact hInv
    | some q => exact hInv

theorem step_fresh {c : String} (e : Event) (st : ServerState) (hc : cFresh c st)
    (hne : ∀ s p, e = Event.join s p → s ≠ c) :
    cFresh c (stepState e st) := by
  obtain ⟨hfu, hfr, hfi⟩ := hc
  cases e with
  | join s p =>
    have hsc : s ≠ c := hne s p rfl
    cases p with
    | none => exact ⟨hfu, hfr, hfi⟩
    | some q =>
      by_cases hv : q.roomId = "" ∨ q.email = ""
      · rw [stepState, step, handleJoin_invalid hv]
        exact ⟨hfu, hfr, hfi⟩
      · refine ⟨?_, ?_, ?_⟩
        · rw [join_userSocketMap st hv, listLookup_set_ne (Ne.symm hsc)]
          exact hfu
        · intro r
          by_cases hr : r = q.roomId
          · subst hr
            rw [join_roomKeys_self_general st hv]
            exact not_mem_keys_set (Ne.symm hsc) (hfr _)
          · rw [join_roomKeys_ne hv hr]
            exact hfr r
        · intro r
          by_cases hr : r = q.roomId
          · subst hr
            rw [join_ioMembers_self_general st hv]
            by_cases hs : s ∈ ioMembers q.roomId st.ioRooms
            · rw [if_pos hs]
              exact hfi _
            · rw [if_neg hs]
              intro hmem
              rcases List.mem_append.mp hmem with hm | hm
              · exact hfi _ hm
              · exact hsc (List.mem_singleton.mp hm).symm
          · rw [join_ioMembers_ne hv hr]
            exact hfi r
  | codeChange s p =>
    cases p with
    | none => exact ⟨hfu, hfr, hfi⟩
    | some q => exact ⟨hfu, hfr, hfi⟩
  | cursorMove s p =>
    cases p with
    | none => exact ⟨hfu, hfr, hfi⟩
    | some q => exact ⟨hfu, hfr, hfi⟩
  | selectionChange s p =>
    cases p with
    | none => exact ⟨hfu, hfr, hfi⟩
    | some q => exact ⟨hfu, hfr, hfi⟩
  | disconnect s reason =>
    have hioOut : ∀ r, c ∉ ioMembers r (ioLeaveAll s st.ioRooms) := by
      intro r hmem
      rw [ioMembers_leaveAll] at hmem
      exact hfi r (mem_removeAll_iff.mp hmem).1
    cases hu : listLookup s st.userSocketMap with
    | none =>
      rw [stepState, step, handleDisconnect_none hu]
      exact ⟨hfu, hfr, hioOut⟩
    | some ud =>
      cases hroom : listLookup ud.roomId st.activeRooms with
      | none =>
        rw [stepState, step, handleDisconnect_no_room hu hroom]
        exact ⟨lookup_delete_none hfu, hfr, hioOut⟩
      | some room =>
        by_cases hlen : (listDelete s room).length = 0
        · rw [stepState, step, handleDisconnect_room_empty hu hroom hlen]
          refine ⟨lookup_delete_none hfu, ?_, hioOut⟩
          intro r
          dsimp only [roomKeys]
          by_cases hr : r = ud.roomId
          · subst hr
            rw [listLookup_delete_self]
            exact List.not_mem_nil c
          · rw [listLookup_delete_ne hr]
            exact hfr r
        · rw [stepState, step, handleDisconnect_room_nonempty hu hroom hlen]
          refine ⟨lookup_delete_none hfu, ?_, hioOut⟩
          intro r
          dsimp only [roomKeys]
          by_cases hr : r = ud.roomId
          · subst hr
            rw [listLookup_set_self]
            dsimp only [Option.getD_some]
            rw [keys_delete]
            intro hmem
            have h1 := (mem_removeAll_iff.mp hmem).1
            have h2 : c ∈ roomKeys ud.roomId st.activeRooms := by
              rw [roomKeys, hroom]
              exact h1
            exact hfr _ h2
          · rw [listLookup_set_ne hr]
            exact hfr r
  | userCall s p =>
    cases p with
    | none => exact ⟨hfu, hfr, hfi⟩
    | some q => exact ⟨hfu, hfr, hfi⟩
  | callAccept s p =>
    cases p with
    | none => exact ⟨hfu, hfr, hfi⟩
    | some q => exact ⟨hfu, hfr, hfi⟩
  | peerNegoNeed s p =>
    cases p with
    | none => exact ⟨hfu, hfr, hfi⟩
    | some q => exact ⟨hfu, hfr, hfi⟩
  | peerNegoDone s p =>
    cases p with
    | none => exact ⟨hfu, hfr, hfi⟩
    | some q => exact ⟨hfu, hfr, hfi⟩
  | screenStart s p =>
    cases p with
    | none => exact ⟨hfu, hfr, hfi⟩
    | some q => exact ⟨hfu, hfr, hfi⟩
  | screenStop s p =>
    cases p with
    | none => exact ⟨hfu, hfr, hfi⟩
    | some q => exact ⟨hfu, hfr, hfi⟩

/-! ## Trace-level lemmas -/

theorem countJoins_cons_join (c s : String) (p : Option JoinPayload) (evs : List Event) :
    countJoins c (Event.join s p :: evs) =
      countJoins c evs + (if s = c then 1 else 0) := by
  unfold countJoins
  show (s :: joinSenders evs).count c = _
  by_cases h : s = c
  · subst h
    rw [List.count_cons_self, if_pos rfl]
  · rw [List.count_cons_of_ne (Ne.symm h), if_neg h]
    omega

theorem countJoins_le_cons (c : String) (e : Event) (evs : List Event) :
    countJoins c evs ≤ countJoins c (e :: evs) := by
  cases e
  case join s p =>
    rw [countJoins_cons_join]
    omega
  all_goals exact Nat.le_refl _

theorem run_inv (evs : List Event) (st : ServerState)
    (hInv : StInv st)
    (hFresh : ∀ c, 1 ≤ countJoins c evs → cFresh c st)
    (hOnce : ∀ c, countJoins c evs ≤ 1) :
    StInv (run st evs) := by
  induction evs generalizing st with
  | nil => exact hInv
  | cons e evs ih =>
    refine ih (stepState e st) ?_ ?_ ?_
    · refine step_inv e st hInv ?_
      intro c p hep
      refine hFresh c ?_
      subst hep
      rw [countJoins_cons_join, if_pos rfl]
      omega
    · intro c hc1
      by_cases hec : ∃ p, e = Event.join c p
      · obtain ⟨p, rfl⟩ := hec
        exfalso
        have h1 := hOnce c
        rw [countJoins_cons_join, if_pos rfl] at h1
        omega
      · have hstep : ∀ s p, e = Event.join s p → s ≠ c := by
          intro s p hep hsc
          exact hec ⟨p, by rw [hep, hsc]⟩
        refine step_fresh e st (hFresh c ?_) hstep
        exact Nat.le_trans hc1 (countJoins_le_cons c e evs)
    · intro c
      exact Nat.le_trans (countJoins_le_cons c e evs) (hOnce c)

theorem run_fresh {c : String} (evs : List Event) (st : ServerState)
    (hc : cFresh c st) (h0 : countJoins c evs = 0) :
    cFresh c (run st evs) := by
  induction evs generalizing st with
  | nil => exact hc
  | cons e evs ih =>
    have hle := countJoins_le_cons c e evs
    refine ih (stepState e st) (step_fresh e st hc ?_) (by omega)
    intro s p hep hsc
    subst hep
    subst hsc
    rw [countJoins_cons_join, if_pos rfl] at h0
    omega

theorem trace_inv (evs : List Event) (hOnce : (joinSenders evs).Nodup) :
    StInv (run initState evs) :=
  run_inv evs initState initState_inv (fun c _ => initState_fresh c)
    (fun c => List.nodup_iff_count_le_one.mp hOnce c)

/-! ## Claim C2: amended -/

/-- C2 amended: in any trace of events in which each connection issues at
most one join (the join senders are pairwise distinct), every
ConnectionIdentity appears in at most one room's member set. Without
that restriction the property fails, because a second join to a
different room leaves the old member record behind. -/
theorem C2_unique_room_single_join (evs : List Event)
    (hOnce : (joinSenders evs).Nodup) (c r1 r2 : String)
    (h1 : c ∈ roomKeys r1 (run initState evs).activeRooms)
    (h2 : c ∈ roomKeys r2 (run initState evs).activeRooms) : r1 = r2 := by
  obtain ⟨hio, hrec, hnd⟩ := trace_inv evs hOnce
  obtain ⟨e1, he1⟩ := hrec c r1 h1
  obtain ⟨e2, he2⟩ := hrec c r2 h2
  have h3 : (⟨e1, r1⟩ : UserData) = ⟨e2, r2⟩ := Option.some.inj (he1.symm.trans he2)
  exact congrArg UserData.roomId h3

/-- Witness for C2 amended on a concrete one-join trace. -/
theorem C2_unique_room_single_join_witness :
    (joinSenders [Event.join "s1" (some ⟨"r1", "a@x.com"⟩)]).Nodup ∧
    "s1" ∈ roomKeys "r1"
      (run initState [Event.join "s1" (some ⟨"r1", "a@x.com"⟩)]).activeRooms ∧
    ("r1" : String) = "r1" :=
  ⟨by decide, by decide,
    C2_unique_room_single_join [Event.join "s1" (some ⟨"r1", "a@x.com"⟩)]
      (by decide) "s1" "r1" "r1" (by decide) (by decide)⟩

/-! ## Claim C7 -/

/-- The recipient list is exactly the given member list minus the sender,
with no duplicate deliveries and the sender excluded. -/
def ExactRoomBroadcast (recipients : List String) (sender : String)
    (members : List String) : Prop :=
  sender ∉ recipients ∧ recipients.Nodup ∧
  ∀ t, t ∈ recipients ↔ (t ∈ members ∧ t ≠ sender)

theorem socketTo_recipients (sender roomId : String) (ior : List (String × List String))
    (m : Msg) :
    (socketTo sender roomId ior m).map Prod.fst = removeAll sender (ioMembers roomId ior) := by
  unfold socketTo
  rw [List.map_map]
  exact List.map_id _

theorem exactRoomBroadcast_removeAll {sender : String} {members : List String}
    (hnd : members.Nodup) :
    ExactRoomBroadcast (removeAll sender members) sender members :=
  ⟨not_mem_removeAll _ _, removeAll_nodup hnd, fun _ => mem_removeAll_iff⟩

theorem exactRoomBroadcast_append {sender : String} {members : List String}
    (hnd : members.Nodup) (hs : sender ∉ members) :
    ExactRoomBroadcast members sender (members ++ [sender]) := by
  refine ⟨hs, hnd, fun t => ⟨fun ht => ⟨List.mem_append.mpr (Or.inl ht),
    fun he => hs (he ▸ ht)⟩, ?_⟩⟩
  rintro ⟨ht, hne⟩
  rcases List.mem_append.mp ht with h | h
  · exact h
  · exact absurd (List.mem_singleton.mp h) hne

theorem exactRoomBroadcast_nil (sender : String) :
    ExactRoomBroadcast [] sender [] :=
  ⟨List.not_mem_nil _, List.Pairwise.nil,
    fun t => ⟨fun h => absurd h (List.not_mem_nil t),
      fun h => absurd h.1 (List.not_mem_nil t)⟩⟩

theorem exactRoomBroadcast_post {sender : String} {members : List String}
    (hnd : members.Nodup) :
    ExactRoomBroadcast (removeAll sender members) sender (removeAll sender members) :=
  ⟨not_mem_removeAll _ _, removeAll_nodup hnd,
    fun _ => ⟨fun ht => ⟨ht, (mem_removeAll_iff.mp ht).2⟩, fun h => h.1⟩⟩

/-- C7 counterexample: after connection "b" joins "r1", re-joins "r2" and
disconnects, "b" is still a recorded member of "r1"; a code-change from
"a" to "r1" is then delivered to nobody, so the member "b" (distinct from
the sender) does not receive exactly one copy, refuting "the recipient set
is exactly the current members of R other than S". -/
theorem C7_counterexample :
    "b" ∈ roomKeys "r1" (run initState [Event.join "a" (some ⟨"r1", "a@x.com"⟩),
      Event.join "b" (some ⟨"r1", "b@x.com"⟩), Event.join "b" (some ⟨"r2", "b@x.com"⟩),
      Event.disconnect "b" "transport close"]).activeRooms ∧
    ("b" : String) ≠ "a" ∧
    recipientsOf (step (Event.codeChange "a" (some ⟨"r1", "X", "0"⟩))
      (run initState [Event.join "a" (some ⟨"r1", "a@x.com"⟩),
        Event.join "b" (some ⟨"r1", "b@x.com"⟩), Event.join "b" (some ⟨"r2", "b@x.com"⟩),
        Event.disconnect "b" "transport close"])) = [] := by
  decide

/-- C7 amended: in any trace where each connection issues at most one
join, every broadcast-class event about a room reaches exactly the
recorded members of that room other than the sender, one copy each and
never the sender: this holds for code-changed, cursor-moved and
selection-changed against the pre-state members, for the user:joined
notice of a join against the post-join members, and for the
user:disconnected notice against the remaining members after removal. -/
theorem C7_broadcast_exclusion (evs : List Event) (hOnce : (joinSenders evs).Nodup) :
    (∀ S R code q, ExactRoomBroadcast
        (recipientsOf (step (Event.codeChange S (some ⟨R, code, q⟩)) (run initState evs)))
        S (roomKeys R (run initState evs).activeRooms)) ∧
    (∀ S R q, ExactRoomBroadcast
        (recipientsOf (step (Event.cursorMove S (some ⟨R, q⟩)) (run initState evs)))
        S (roomKeys R (run initState evs).activeRooms)) ∧
    (∀ S R sel, ExactRoomBroadcast
        (recipientsOf (step (Event.selectionChange S (some ⟨R, sel⟩)) (run initState evs)))
        S (roomKeys R (run initState evs).activeRooms)) ∧
    (∀ N p, countJoins N evs = 0 → ¬(p.roomId = "" ∨ p.email = "") →
      ExactRoomBroadcast
        (((step (Event.join N (some p)) (run initState evs)).emits.drop 1).map Prod.fst)
        N (roomKeys p.roomId
          (stepState (Event.join N (some p)) (run initState evs)).activeRooms)) ∧
    (∀ S e R reason, listLookup S (run initState evs).userSocketMap = some ⟨e, R⟩ →
      ExactRoomBroadcast
        (recipientsOf (step (Event.disconnect S reason) (run initState evs)))
        S (roomKeys R
          (stepState (Event.disconnect S reason) (run initState evs)).activeRooms)) := by
  obtain ⟨hio, hrec, hnd⟩ := trace_inv evs hOnce
  refine ⟨?_, ?_, ?_, ?_, ?_⟩
  · intro S R code q
    have key : recipientsOf (step (Event.codeChange S (some ⟨R, code, q⟩))
        (run initState evs)) = removeAll S (roomKeys R (run initState evs).activeRooms) := by
      show (socketTo S R (run initState evs).ioRooms
        (Msg.codeChanged code q S)).map Prod.fst = _
      rw [socketTo_recipients, hio]
    rw [key]
    exact exactRoomBroadcast_removeAll (hnd R)
  · intro S R q
    have key : recipientsOf (step (Event.cursorMove S (some ⟨R, q⟩))
        (run initState evs)) = removeAll S (roomKeys R (run initState evs).activeRooms) := by
      show (socketTo S R (run initState evs).ioRooms
        (Msg.cursorMoved q S)).map Prod.fst = _
      rw [socketTo_recipients, hio]
    rw [key]
    exact exactRoomBroadcast_removeAll (hnd R)
  · intro S R sel
    have key : recipientsOf (step (Event.selectionChange S (some ⟨R, sel⟩))
        (run initState evs)) = removeAll S (roomKeys R (run initState evs).activeRooms) := by
      show (socketTo S R (run initState evs).ioRooms
        (Msg.selectionChanged sel S)).map Prod.fst = _
      rw [socketTo_recipients, hio]
    rw [key]
    exact exactRoomBroadcast_removeAll (hnd R)
  · intro N p h0 hv
    obtain ⟨hfu, hfr, hfi⟩ := run_fresh evs initState (initState_fresh N) h0
    have hemits : ((step (Event.join N (some p)) (run initState evs)).emits.drop 1).map
        Prod.fst =
        removeAll N (ioMembers p.roomId (ioJoin p.roomId N (run initState evs).ioRooms)) := by
      rw [show step (Event.join N (some p)) (run initState evs) =
        handleJoin N (some p) (run initState evs) from rfl, handleJoin_valid hv]
      show (socketTo N p.roomId (ioJoin p.roomId N (run initState evs).ioRooms)
        (Msg.userJoined p.email N)).map Prod.fst = _
      rw [socketTo_recipients]
    rw [hemits]
    have hcur : ioMembers p.roomId (ioJoin p.roomId N (run initState evs).ioRooms) =
        ioMembers p.roomId (run initState evs).ioRooms ++ [N] := by
      rw [ioMembers_ioJoin_self, if_neg (hfi _)]
    have hNnil : removeAll N [N] = ([] : List String) := by simp [removeAll]
    rw [hcur, removeAll_append, removeAll_eq_of_not_mem (hfi _), hNnil, List.append_nil,
      hio, join_roomKeys_self hv (hfr _)]
    exact exactRoomBroadcast_append (hnd _) (hfr _)
  · intro S e R reason hrecS
    cases hroom : listLookup R (run initState evs).activeRooms with
    | none =>
      have h1 : recipientsOf (step (Event.disconnect S reason) (run initState evs)) = [] := by
        rw [show step (Event.disconnect S reason) (run initState evs) =
          handleDisconnect S (run initState evs) from rfl,
          handleDisconnect_no_room hrecS hroom]
        rfl
      have h2 : roomKeys R
          (stepState (Event.disconnect S reason) (run initState evs)).activeRooms = [] := by
        rw [show stepState (Event.disconnect S reason) (run initState evs) =
          (handleDisconnect S (run initState evs)).state from rfl,
          handleDisconnect_no_room hrecS hroom]
        dsimp only
        rw [roomKeys, hroom]
        rfl
      rw [h1, h2]
      exact exactRoomBroadcast_nil S
    | some room =>
      by_cases hlen : (listDelete S room).length = 0
      · have hnil : listDelete S room = [] := List.length_eq_zero.mp hlen
        have h1 : recipientsOf (step (Event.disconnect S reason)
            (run initState evs)) = [] := by
          rw [show step (Event.disconnect S reason) (run initState evs) =
            handleDisconnect S (run initState evs) from rfl,
            handleDisconnect_room_empty hrecS hroom hlen]
          show (socketTo S R (ioLeaveAll S (run initState evs).ioRooms)
            (Msg.userDisconnected S e)).map Prod.fst = []
          rw [socketTo_recipients, ioMembers_leaveAll,
            removeAll_eq_of_not_mem (not_mem_removeAll _ _), hio]
          rw [roomKeys, hroom]
          show removeAll S (room.map Prod.fst) = []
          rw [← keys_delete, hnil]
          rfl
        have h2 : roomKeys R
            (stepState (Event.disconnect S reason) (run initState evs)).activeRooms = [] := by
          rw [show stepState (Event.disconnect S reason) (run initState evs) =
            (handleDisconnect S (run initState evs)).state from rfl,
            handleDisconnect_room_empty hrecS hroom hlen]
          dsimp only
          rw [roomKeys, listLookup_delete_self]
          rfl
        rw [h1, h2]
        exact exactRoomBroadcast_nil S
      · have h1 : recipientsOf (step (Event.disconnect S reason) (run initState evs)) =
            removeAll S (room.map Prod.fst) := by
          rw [show step (Event.disconnect S reason) (run initState evs) =
            handleDisconnect S (run initState evs) from rfl,
            handleDisconnect_room_nonempty hrecS hroom hlen]
          show (socketTo S R (ioLeaveAll S (run initState evs).ioRooms)
            (Msg.userDisconnected S e)).map Prod.fst = _
          rw [socketTo_recipients, ioMembers_leaveAll,
            removeAll_eq_of_not_mem (not_mem_removeAll _ _), hio]
          rw [roomKeys, hroom]
          rfl
        have h2 : roomKeys R
            (stepState (Event.disconnect S reason) (run initState evs)).activeRooms =
            removeAll S (room.map Prod.fst) := by
          rw [show stepState (Event.disconnect S reason) (run initState evs) =
            (handleDisconnect S (run initState evs)).state from rfl,
            handleDisconnect_room_nonempty hrecS hroom hlen]
          dsimp only
          rw [roomKeys, listLookup_set_self]
          dsimp only [Option.getD_some]
          exact keys_delete _ _
        have hndroom : (room.map Prod.fst).Nodup := by
          have h3 := hnd R
          rw [roomKeys, hroom] at h3
          exact h3
        rw [h1, h2]
        exact exactRoomBroadcast_post hndroom

/-- Witness for C7 amended on a concrete two-member room. -/
theorem C7_broadcast_exclusion_witness :
    (joinSenders [Event.join "a" (some ⟨"r1", "a@x.com"⟩),
      Event.join "b" (some ⟨"r1", "b@x.com"⟩)]).Nodup ∧
    ExactRoomBroadcast
      (recipientsOf (step (Event.codeChange "a" (some ⟨"r1", "X", "0"⟩))
        (run initState [Event.join "a" (some ⟨"r1", "a@x.com"⟩),
          Event.join "b" (some ⟨"r1", "b@x.com"⟩)])))
      "a" (roomKeys "r1" (run initState [Event.join "a" (some ⟨"r1", "a@x.com"⟩),
        Event.join "b" (some ⟨"r1", "b@x.com"⟩)]).activeRooms) :=
  ⟨by decide,
    (C7_broadcast_exclusion [Event.join "a" (some ⟨"r1", "a@x.com"⟩),
      Event.join "b" (some ⟨"r1", "b@x.com"⟩)] (by decide)).1 "a" "r1" "X" "0"⟩
